import Mathlib

/-!
Shallow embedding of `src/logger/invocationLogger.py` (the invocation-logging
engine: `InvocationLogger._wrap`, `InvocationLogger._overwriteMethods`,
`InvocationLogger._overwriteMethodsOnObj`, `Logged`, `LoggedObj`) together
with the minimal slice of the Python runtime the module relies on
(values and `str`, exception kinds and the `BaseException` hierarchy,
class objects with bases / metaclasses, C3 linearization used by class
creation, `dir`, `getattr`, `setattr`).

Python values are modelled by the inductive `Value`; callables by `Method`,
whose body returns the list of sink calls it performs itself together with a
normal result or a raised exception.  Sink invocations `logger(template, v1,
v2, ...)` are modelled by `SinkCall` records carrying the template and the raw
(unformatted) values handed to the sink.
-/

set_option linter.unusedVariables false

/-- A Python value, as far as the logger module can observe one: the `None`
marker, integers, strings, booleans, and references to heap objects. -/
inductive Value where
  | none
  | int (n : Int)
  | str (s : String)
  | bool (b : Bool)
  | obj (id : Nat)
  deriving DecidableEq, Repr

/-- Python `str()` on a value (`str(None) = "None"`, `str(66) = "66"`, ...). -/
def Value.render : Value → String
  | .none => "None"
  | .int n => toString n
  | .str s => s
  | .bool true => "True"
  | .bool false => "False"
  | .obj i => "<object " ++ toString i ++ ">"

/-- The inner `stringify` helper of `InvocationLogger._wrap`: positional
arguments rendered with `str` and keyword arguments rendered as `name=value`,
positional first, all joined by `", "`. -/
def stringify (args : List Value) (kwargs : List (String × Value)) : String :=
  String.intercalate ", "
    (args.map Value.render ++ kwargs.map (fun p => p.1 ++ "=" ++ p.2.render))

/-- A raised Python exception: its type name (`type(e).__name__`), its message
(`str(e)`), and an abstract payload standing for the rest of its associated
state (args, context, ...). -/
structure Exn where
  kind : String
  msg : String
  payload : Value
  deriving DecidableEq, Repr

/-- Immediate base class of an exception type in the (relevant part of the)
Python exception hierarchy.  Exception kinds the table does not know derive
from `Exception`, as ordinary user-defined exceptions do. -/
def exnParent (k : String) : Option String :=
  if k = "BaseException" then Option.none
  else if k = "Exception" then some "BaseException"
  else if k = "SystemExit" then some "BaseException"
  else if k = "KeyboardInterrupt" then some "BaseException"
  else if k = "GeneratorExit" then some "BaseException"
  else some "Exception"

/-- Whether exception kind `k` is `target` or (transitively) derives from it;
this is what a Python `except target:` clause checks. -/
def derivesFrom : Nat → String → String → Bool
  | 0, _, _ => false
  | fuel + 1, k, target =>
    (k == target) ||
      (match exnParent k with
       | Option.none => false
       | some p => derivesFrom fuel p target)

/-- One invocation of the external sink (`logger`): the `%s`-template and the
ordered raw values passed along with it. -/
structure SinkCall where
  tmpl : String
  vals : List Value
  deriving DecidableEq, Repr

/-- A callable taking an explicit receiver, positional and keyword arguments.
Its result is the list of sink calls the body itself performs (empty for the
plain test methods; nonempty when the body is itself a wrapper) together with
either a returned value or a raised exception. -/
structure Method where
  name : String
  fn : Value → List Value → List (String × Value) → List SinkCall × Except Exn Value

/-- `InvocationLogger._wrap(function, class_name, logger)` applied to one
call: emit the call record, run the original, then emit the result record and
return the value unchanged, or—for any exception caught by the
`except BaseException` clause—emit the raised record and re-raise unchanged. -/
def wrapCall (m : Method) (cn : String) (inst : Value) (args : List Value)
    (kwargs : List (String × Value)) : List SinkCall × Except Exn Value :=
  let pfx := cn ++ "." ++ m.name
  let callRec : SinkCall := ⟨"%s(%s)", [.str pfx, .str (stringify args kwargs)]⟩
  match m.fn inst args kwargs with
  | (tr, .ok v) => (callRec :: (tr ++ [⟨"%s: %s", [.str pfx, v]⟩]), .ok v)
  | (tr, .error e) =>
    if derivesFrom 4 e.kind "BaseException" then
      (callRec :: (tr ++ [⟨"%s: raised %s (\"%s\")", [.str pfx, .str e.kind, .str e.msg]⟩]),
       .error e)
    else
      (callRec :: tr, .error e)

/-- The wrapped callable produced by `InvocationLogger._wrap`; by
`functools.wraps` it exposes the original's `__name__`. -/
def wrapMethod (m : Method) (cn : String) : Method :=
  ⟨m.name, fun inst args kwargs => wrapCall m cn inst args kwargs⟩

/-! ## Class attributes and namespaces -/

/-- An entry of a class `__dict__` or of an instance `__dict__`: a plain
function (callable), the closure installed by `LoggedObj`'s `bind` (callable,
called without a receiver, with the receiver object baked in), or a
non-callable data value. -/
inductive Attr where
  | fn (m : Method)
  | boundLam (m : Method) (label : String) (selfId : Nat)
  | data (v : Value)

/-- Python `callable(attr)` for the attributes we model. -/
def Attr.callable : Attr → Bool
  | .data _ => false
  | _ => true

/-- View a callable attribute as a `Method` taking an explicit receiver; the
`bind` closure ignores the passed receiver and uses the baked-in object
(its `__name__` is the lambda's). -/
def Attr.asMethod : Attr → Option Method
  | .fn m => some m
  | .boundLam m label selfId =>
      some ⟨"<lambda>", fun _ args kwargs => wrapCall m label (.obj selfId) args kwargs⟩
  | .data _ => Option.none

/-- `InvocationLogger._wrap` applied to a callable attribute, with the wrapped
result placed back into a namespace. -/
def wrapAttr (a : Attr) (cn : String) : Attr :=
  match a.asMethod with
  | some m => .fn (wrapMethod m cn)
  | Option.none => a

/-- A namespace / attribute table (`__dict__`), in insertion order. -/
abbrev Namespace := List (String × Attr)

/-- Dictionary lookup. -/
def lookupNS : Namespace → String → Option Attr
  | [], _ => Option.none
  | p :: ps, n => if p.1 = n then some p.2 else lookupNS ps n

/-- Python `name in namespace`. -/
def nsContains (ns : Namespace) (n : String) : Bool :=
  (lookupNS ns n).isSome

/-- The keys of a namespace. -/
def nsKeys (ns : Namespace) : List String := ns.map Prod.fst

/-- Python `setattr` / dictionary assignment: overwrite the entry if the key
is present, otherwise append it. -/
def setAttrD : Namespace → String → Attr → Namespace
  | [], n, a => [(n, a)]
  | p :: ps, n, a => if p.1 = n then (n, a) :: ps else p :: setAttrD ps n a

/-! ## Classes, the environment, and C3 linearization -/

/-- A class object: identity, `__name__`, `__bases__` (by id), `__dict__`,
its metaclass `type(cls)` (by id), and—for classes used as metaclasses—an
optional custom `__new__` hook, modelled as one attribute the hook adds to
every class namespace it constructs. -/
structure ClsDecl where
  id : Nat
  pyname : String
  bases : List Nat
  ns : Namespace
  metaId : Nat
  newHook : Option (String × Attr)

/-- All class objects in existence. -/
abbrev Env := List ClsDecl

/-- Dereference a class id. -/
def findCls (env : Env) (i : Nat) : Option ClsDecl :=
  env.find? (fun d => d.id = i)

/-- An id not used by any existing class. -/
def freshId (env : Env) : Nat :=
  env.foldl (fun acc d => max acc d.id) 0 + 1

/-- Id of the builtin `object` class. -/
def OBJID : Nat := 0
/-- Id of the builtin `type` metaclass. -/
def TYPEID : Nat := 1
/-- Id of the `InvocationLogger` metaclass defined by the module. -/
def ILID : Nat := 2

/-- The C3 merge step used by Python's MRO linearization: repeatedly take the
first head that appears in no tail, failing when no head qualifies. -/
def c3merge : Nat → List (List Nat) → Option (List Nat)
  | 0, _ => Option.none
  | fuel + 1, seqs =>
    let ss := seqs.filter (fun s => !s.isEmpty)
    if ss.isEmpty then some []
    else
      match (ss.filterMap List.head?).find? (fun c => ss.all (fun s => !((s.drop 1).contains c))) with
      | Option.none => Option.none
      | some c => (c3merge fuel (ss.map (fun s => s.filter (fun x => x != c)))).map (fun l => c :: l)

/-- The method resolution order of a class:
`L(C) = C :: merge(L(B1), ..., L(Bn), [B1, ..., Bn])`.  `none` when the
hierarchy cannot be linearized (or the class is unknown / fuel runs out). -/
def mroF (env : Env) : Nat → Nat → Option (List Nat)
  | 0, _ => Option.none
  | fuel + 1, c =>
    match findCls env c with
    | Option.none => Option.none
    | some d =>
      match d.bases.mapM (mroF env fuel) with
      | Option.none => Option.none
      | some ms =>
        let seqs := ms ++ [d.bases]
        match c3merge (seqs.foldl (fun acc s => acc + s.length) 0 + 1) seqs with
        | Option.none => Option.none
        | some merged => some (c :: merged)

/-- First class in the given resolution order whose `__dict__` has the name. -/
def firstNs (env : Env) : List Nat → String → Option Attr
  | [], _ => Option.none
  | i :: rest, n =>
    match findCls env i with
    | some d =>
      match lookupNS d.ns n with
      | some a => some a
      | Option.none => firstNs env rest n
    | Option.none => firstNs env rest n

/-- `getattr(cls, n)` on a class: resolve through the MRO. -/
def getattrCls (env : Env) (fuel : Nat) (c : Nat) (n : String) : Option Attr :=
  match mroF env fuel c with
  | Option.none => Option.none
  | some l => firstNs env l n

/-- Lexicographic comparison of character lists by codepoint (the kernel
cannot reduce `String.decidableLT`). -/
def charsLt : List Char → List Char → Bool
  | [], [] => false
  | [], _ :: _ => true
  | _ :: _, [] => false
  | c :: cs, d :: ds =>
    if c.toNat < d.toNat then true
    else if d.toNat < c.toNat then false
    else charsLt cs ds

/-- String comparison used by the sorted `dir` listings. -/
def strLtB (a b : String) : Bool := charsLt a.data b.data

/-- Insert into a sorted list of strings, skipping duplicates. -/
def insertStr (s : String) : List String → List String
  | [] => [s]
  | x :: xs => if s = x then x :: xs else if strLtB s x then s :: x :: xs else x :: insertStr s xs

/-- Sort a list of strings, removing duplicates (the set-and-sort `dir` does). -/
def sortedDedup (l : List String) : List String :=
  l.foldl (fun acc s => insertStr s acc) []

/-- `__dict__` keys of the class with the given id. -/
def clsNsKeys (env : Env) (i : Nat) : List String :=
  match findCls env i with
  | some d => nsKeys d.ns
  | Option.none => []

/-- `dir(cls)`: the sorted set of attribute names visible on the class
through its whole MRO. -/
def dirCls (env : Env) (fuel : Nat) (c : Nat) : List String :=
  match mroF env fuel c with
  | Option.none => []
  | some l => sortedDedup (l.foldr (fun i acc => clsNsKeys env i ++ acc) [])

/-! ## Member discovery on the type path (`InvocationLogger._overwriteMethods`) -/

/-- `name.startswith('_')`, the module's public/private test.  (Phrased on
the character list because `String.startsWith` does not reduce in the
kernel.) -/
def startsWithUnderscore (s : String) : Bool :=
  match s.data with
  | [] => false
  | c :: _ => c = '_'

/-- One iteration of the `for obj in dir(cls)` loop of
`InvocationLogger._overwriteMethods`: if the name is not yet in the namespace
being built and is public, resolve it with `getattr(cls, obj)` and, when the
attribute is callable, install a wrapped version under that name. -/
def processName (env : Env) (fuel : Nat) (c : Nat) (cn : String) (ns : Namespace)
    (n : String) : Namespace :=
  if !nsContains ns n && !startsWithUnderscore n then
    match getattrCls env fuel c n with
    | some a => if a.callable then ns ++ [(n, wrapAttr a cn)] else ns
    | Option.none => ns
  else ns

/-- `InvocationLogger._overwriteMethods(cls, namespace, class_name, logger)`:
process every name in `dir(cls)`, then recurse into each direct base. -/
def overwriteMethods (env : Env) : Nat → Nat → Namespace → String → Namespace
  | 0, _, ns, _ => ns
  | fuel + 1, c, ns, cn =>
    match findCls env c with
    | Option.none => ns
    | some d =>
      let ns1 := (dirCls env (fuel + 1) c).foldl (fun acc n => processName env (fuel + 1) c cn acc n) ns
      d.bases.foldl (fun acc b => overwriteMethods env fuel b acc cn) ns1

/-! ## Class creation and `Logged` -/

/-- A Python-level failure: `TypeError` is what class creation raises when
the hierarchy cannot be linearized (the spec's ConstructionError);
`AttributeError` is raised by a failing `getattr`; `KeyError` by a missing
keyword argument; `NameError` stands for an unknown class. -/
inductive PyErr where
  | typeError
  | attributeError
  | keyError
  | nameError
  deriving DecidableEq, Repr

/-- Which `__new__` runs when a class is created with a given metaclass. -/
inductive ConstructKind where
  | ilWrap
  | custom (n : String) (a : Attr)
  | dflt

/-- Resolve `__new__` along the metaclass's MRO: `InvocationLogger` defines
the wrapping `__new__`; a metaclass with a custom hook defines its own;
otherwise fall through to `type.__new__`. -/
def resolveConstruction (env : Env) : List Nat → ConstructKind
  | [] => .dflt
  | i :: rest =>
    if i = ILID then .ilWrap
    else
      match findCls env i with
      | some d =>
        match d.newHook with
        | some (n, a) => .custom n a
        | Option.none => resolveConstruction env rest
      | Option.none => resolveConstruction env rest

/-- The metaclass a class creation uses: the explicitly passed one, else the
metaclass of the first base, else `type`. -/
def metaDefault (env : Env) (em : Option Nat) (bases : List Nat) : Nat :=
  match em with
  | some m => m
  | Option.none =>
    match bases with
    | [] => TYPEID
    | b :: _ =>
      match findCls env b with
      | some bd => bd.metaId
      | Option.none => TYPEID

/-- Whether a new class with the given bases can be linearized (the check
`type.__new__` performs; failure raises `TypeError`). -/
def newClassOk (env : Env) (bases : List Nat) (metaId : Nat) : Bool :=
  (mroF (⟨freshId env, "", bases, [], metaId, Option.none⟩ :: env) (env.length + 2) (freshId env)).isSome

/-- Create a class: check linearizability, then run the `__new__` resolved
from the metaclass.  `InvocationLogger.__new__` reads `class_name` from the
keyword arguments (`kw`), runs `_overwriteMethods` over every direct base to
populate the namespace, and then calls `type.__new__` directly.  A custom
metaclass hook contributes its attribute; `type.__new__` installs the
(empty) class body unchanged. -/
def createClass (env : Env) (pn : String) (bases : List Nat) (em : Option Nat)
    (kw : Option String) : Except PyErr (Env × Nat) :=
  let nid := freshId env
  let mid := metaDefault env em bases
  if newClassOk env bases mid then
    match resolveConstruction env ((mroF env (env.length + 1) mid).getD [mid]) with
    | .ilWrap =>
      match kw with
      | Option.none => .error .keyError
      | some cn =>
        .ok (⟨nid, pn, bases,
              bases.foldl (fun acc b => overwriteMethods env (env.length + 1) b acc cn) [],
              mid, Option.none⟩ :: env, nid)
    | .custom hn ha => .ok (⟨nid, pn, bases, [(hn, ha)], mid, Option.none⟩ :: env, nid)
    | .dflt => .ok (⟨nid, pn, bases, [], mid, Option.none⟩ :: env, nid)
  else .error .typeError

/-- `Logged(cls, logger)`: create the combined metaclass
`Meta = type('InvocationLogger', (InvocationLogger, type(cls)), {})`, then
create `class __Proxy(cls, metaclass=Meta, class_name=cls.__name__, ...)`.
Returns the extended environment and the proxy's id; any `TypeError` from
either class creation propagates to the caller. -/
def Logged (env : Env) (c : Nat) : Except PyErr (Env × Nat) :=
  match findCls env c with
  | Option.none => .error .nameError
  | some d =>
    match createClass env "InvocationLogger" [ILID, d.metaId] Option.none Option.none with
    | .error e => .error e
    | .ok (env1, mId) => createClass env1 "__Proxy" [c] (some mId) (some d.pyname)

/-! ## The instance path (`InvocationLogger._overwriteMethodsOnObj`, `LoggedObj`) -/

/-- A live instance: identity, its class, and its own attribute table. -/
structure Obj where
  id : Nat
  clsId : Nat
  dict : Namespace

/-- `dir(obj)`: the sorted set of the instance's own attribute names and of
everything visible on its type. -/
def dirObj (env : Env) (fuel : Nat) (o : Obj) : List String :=
  sortedDedup (nsKeys o.dict ++ (match mroF env fuel o.clsId with
    | Option.none => []
    | some l => l.foldr (fun i acc => clsNsKeys env i ++ acc) []))

/-- The `bind` closure of `_overwriteMethodsOnObj`: wrap the unbound attribute
with label `type(obj).__name__` and bake the receiver in. -/
def bindAttr (a : Attr) (tyName : String) (oid : Nat) : Attr :=
  match a.asMethod with
  | some m => .boundLam m tyName oid
  | Option.none => a

/-- One iteration of the `for obj in dir(cls)` loop of
`InvocationLogger._overwriteMethodsOnObj`: skip private names, fetch the
unbound attribute from the type (`getattr(type(obj), name)` — raising
`AttributeError` when the name exists only on the instance) and, when
callable, `setattr` the bound wrapped closure onto the instance. -/
def objStep (env : Env) (fuel : Nat) (clsId : Nat) (tyName : String)
    (acc : Except PyErr Obj) (n : String) : Except PyErr Obj :=
  match acc with
  | .error e => .error e
  | .ok ob =>
    if startsWithUnderscore n then .ok ob
    else
      match getattrCls env fuel clsId n with
      | Option.none => .error .attributeError
      | some a =>
        if a.callable then
          .ok ⟨ob.id, ob.clsId, setAttrD ob.dict n (bindAttr a tyName ob.id)⟩
        else .ok ob

/-- `InvocationLogger._overwriteMethodsOnObj(obj, logger)`: run `objStep`
over every name of `dir(obj)` (the wrapping label is
`type(obj).__name__`). -/
def overwriteMethodsOnObj (env : Env) (fuel : Nat) (o : Obj) : Except PyErr Obj :=
  let tyName := ((findCls env o.clsId).map ClsDecl.pyname).getD ""
  (dirObj env fuel o).foldl (objStep env fuel o.clsId tyName) (.ok o)

/-- `LoggedObj(obj, logger)`: mutate the instance in place and return it. -/
def LoggedObj (env : Env) (o : Obj) : Except PyErr Obj :=
  overwriteMethodsOnObj env (env.length + 1) o

/-- Look an instance up in a heap of instances. -/
def findObj (heap : List Obj) (i : Nat) : Option Obj :=
  heap.find? (fun o => o.id = i)

/-- `LoggedObj` acting on one instance of a heap: only the named instance is
passed to `_overwriteMethodsOnObj`; every other instance is left alone. -/
def LoggedObjHeap (env : Env) (heap : List Obj) (oid : Nat) : Except PyErr (List Obj) :=
  heap.mapM (fun o => if o.id = oid then LoggedObj env o else .ok o)

/-! ## Well-formedness of environments -/

/-- A class-dictionary entry is healthy when a stored function's `__name__`
agrees with the key it is stored under (as for every `def` in a class body)
and no instance-bound closure lives in a class dictionary. -/
def attrOkB : String × Attr → Bool
  | (k, .fn m) => m.name == k
  | (_, .boundLam _ _ _) => false
  | (_, .data _) => true

/-- Every class dictionary of the environment is healthy. -/
def envConsistentB (env : Env) : Bool :=
  env.all (fun d => d.ns.all attrOkB)

/-- No metaclass in the environment carries a custom `__new__` hook. -/
def envNoHooksB (env : Env) : Bool :=
  env.all (fun d => d.newHook.isNone)

/-- Proposition form of `attrOkB`, phrased against lookups. -/
def AttrOkL (n : String) : Attr → Prop
  | .fn m => m.name = n
  | .boundLam _ _ _ => False
  | .data _ => True

/-- Rewrite one class's dictionary (identity on the other fields). -/
def mapNsDecl (f : Nat → Namespace → Namespace) (d : ClsDecl) : ClsDecl :=
  ⟨d.id, d.pyname, d.bases, f d.id d.ns, d.metaId, d.newHook⟩

/-- Rewrite every class dictionary of an environment (identity on ids, bases,
metaclasses and hooks); used to show the construction path never reads
dictionaries. -/
def mapNs (f : Nat → Namespace → Namespace) (env : Env) : Env :=
  env.map (mapNsDecl f)

/-- Proposition form of `envConsistentB`, phrased against lookups. -/
def envConsistentP (env : Env) : Prop :=
  ∀ d ∈ env, ∀ n a, lookupNS d.ns n = some a → AttrOkL n a

/-- Proposition form of `envNoHooksB`. -/
def envNoHooksP (env : Env) : Prop := ∀ d ∈ env, d.newHook = Option.none

/-- Whether an operation succeeded. -/
def isOkE {α : Type} : Except PyErr α → Bool
  | .ok _ => true
  | .error _ => false

/-! ## The builtin part of every environment and the test fixtures

The fixture classes mirror `test/testInvocationLogger.py`: a base class with
`baseMethod1` and a derived class (labelled `T`, as in the spec's scenarios)
with `method1` ... `method5`. -/

/-- `object`. -/
def objDecl0 : ClsDecl := ⟨OBJID, "object", [], [], TYPEID, Option.none⟩
/-- `type`. -/
def typeDecl0 : ClsDecl := ⟨TYPEID, "type", [OBJID], [], TYPEID, Option.none⟩
/-- The `InvocationLogger` metaclass (its own `__dict__` holds only
underscore-prefixed members, which discovery never touches, so it is
modelled empty). -/
def ilDecl0 : ClsDecl := ⟨ILID, "InvocationLogger", [TYPEID], [], TYPEID, Option.none⟩

/-- The builtin classes every well-formed environment contains. -/
def baseWF (env : Env) : Prop :=
  findCls env OBJID = some objDecl0 ∧ findCls env TYPEID = some typeDecl0 ∧
    findCls env ILID = some ilDecl0 ∧ 3 ≤ env.length

/-- `method1`: no arguments, returns nothing. -/
def method1M : Method := ⟨"method1", fun _ _ _ => ([], .ok .none)⟩

/-- `method3`: returns the sum of its two arguments. -/
def method3M : Method :=
  ⟨"method3", fun _ args _ =>
    match args with
    | [.int x, .int y] => ([], .ok (.int (x + y)))
    | _ => ([], .error ⟨"TypeError", "bad arguments", .none⟩)⟩

/-- `method4`: raises `RuntimeError("exception")`. -/
def method4M : Method :=
  ⟨"method4", fun _ _ _ => ([], .error ⟨"RuntimeError", "exception", .none⟩)⟩

/-- `method5`: doubles its `foo` keyword argument. -/
def method5M : Method :=
  ⟨"method5", fun _ _ kwargs =>
    match kwargs with
    | [("foo", .str s)] => ([], .ok (.str (s ++ s)))
    | _ => ([], .error ⟨"TypeError", "bad arguments", .none⟩)⟩

/-- `baseMethod1`: adds its positional argument and its `arg2` keyword. -/
def baseMethod1M : Method :=
  ⟨"baseMethod1", fun _ args kwargs =>
    match args, kwargs with
    | [.int x], [("arg2", .int y)] => ([], .ok (.int (x + y)))
    | [.int x, .int y], [] => ([], .ok (.int (x + y)))
    | _, _ => ([], .error ⟨"TypeError", "bad arguments", .none⟩)⟩

/-- The ancestor class declaring `baseMethod1`. -/
def baseDeclT : ClsDecl :=
  ⟨3, "Base", [OBJID], [("baseMethod1", .fn baseMethod1M)], TYPEID, Option.none⟩

/-- The target class `T` (the test file's `_Object`, with the spec's label). -/
def tDeclT : ClsDecl :=
  ⟨4, "T", [3],
   [("method1", .fn method1M), ("method3", .fn method3M),
    ("method4", .fn method4M), ("method5", .fn method5M)],
   TYPEID, Option.none⟩

/-- Environment holding the builtins and the test classes. -/
def envT : Env := [objDecl0, typeDecl0, ilDecl0, baseDeclT, tDeclT]

/-- The result of `Logged(T, logger)` over the test environment. -/
def loggedT : Env × Nat := ((Logged envT 4).toOption).getD ([], 0)

/-- The proxy class produced by `Logged(T, logger)`. -/
def proxyT : ClsDecl := (findCls loggedT.1 loggedT.2).getD objDecl0

/-- Call a (possibly wrapped) function attribute resolved on a class, with an
explicit receiver: the trace of sink calls and the outcome. -/
def callAttr (env : Env) (c : Nat) (n : String) (inst : Value) (args : List Value)
    (kwargs : List (String × Value)) : Option (List SinkCall × Except Exn Value) :=
  match getattrCls env (env.length + 1) c n with
  | some (.fn m) => some (m.fn inst args kwargs)
  | _ => Option.none

/-! ### Fixture for C6: a target whose metaclass is a strict subclass of
`InvocationLogger`, so that `(InvocationLogger, type(cls))` cannot be
linearized (exactly what happens when `Logged` is applied to a class that is
already a `Logged` proxy). -/

/-- A metaclass deriving from `InvocationLogger`. -/
def subILDecl : ClsDecl := ⟨3, "Meta0", [ILID], [], TYPEID, Option.none⟩
/-- A class whose `type(cls)` is that subclass. -/
def cDeclC6 : ClsDecl := ⟨4, "C", [OBJID], [], 3, Option.none⟩
/-- Environment for the C6 scenario. -/
def envC6 : Env := [objDecl0, typeDecl0, ilDecl0, subILDecl, cDeclC6]

/-! ### Fixture for C7: a target class `Foo` that already uses a custom
metaclass `MetaBar` (as in `TestInvocationLoggerWithMeta`), here carrying a
construction hook `h` that stamps one attribute onto every class namespace it
builds. -/

/-- `Foo.foo`, returning 42. -/
def fooM : Method := ⟨"foo", fun _ _ _ => ([], .ok (.int 42))⟩
/-- The custom metaclass, with construction hook `h`. -/
def mDecl7 (h : String × Attr) : ClsDecl := ⟨3, "MetaBar", [TYPEID], [], TYPEID, some h⟩
/-- The target class using the custom metaclass. -/
def cDecl7 : ClsDecl := ⟨4, "Foo", [OBJID], [("foo", .fn fooM)], 3, Option.none⟩
/-- Environment for the C7 scenario. -/
def env7 (h : String × Attr) : Env := [objDecl0, typeDecl0, ilDecl0, mDecl7 h, cDecl7]

/-! ### Fixture for C8: instances of a plain class, one of them carrying a
public non-callable instance-only attribute. -/

/-- A class with one public method and one public non-callable class field. -/
def pDecl8 : ClsDecl :=
  ⟨3, "P", [OBJID],
   [("m", .fn ⟨"m", fun _ _ _ => ([], .ok .none)⟩), ("field", .data (.int 7))],
   TYPEID, Option.none⟩
/-- Environment for the C8 scenario. -/
def env8 : Env := [objDecl0, typeDecl0, ilDecl0, pDecl8]
/-- An instance with a public non-callable attribute only it (not its type) has. -/
def obj8bad : Obj := ⟨10, 3, [("x", .data (.int 5))]⟩
/-- A plain instance of the same class. -/
def obj8good : Obj := ⟨11, 3, []⟩
/-- `obj8good` after `LoggedObj`. -/
def obj8res : Obj := ((LoggedObj env8 obj8good).toOption).getD obj8good
/-- The attribute discovery installs for `P.m`. -/
def w8 : Attr := (lookupNS (overwriteMethods env8 5 3 [] "P") "m").getD (.data .none)
/-- A second instance, sibling of `obj8good`. -/
def obj9sib : Obj := ⟨12, 3, []⟩
/-- A heap holding both instances. -/
def heap9 : List Obj := [obj8good, obj9sib]
/-- The heap after wrapping only instance 11 in place. -/
def heap9res : List Obj := ((LoggedObjHeap env8 heap9 11).toOption).getD []

/-! ### Fixture for C5: a diamond hierarchy `D < B1, B2 < A`, so that
discovery reaches `A`'s member along two resolution paths. -/

/-- The method declared at the top of the diamond. -/
def amM : Method := ⟨"am", fun _ _ _ => ([], .ok .none)⟩
/-- Diamond top. -/
def aDecl : ClsDecl := ⟨3, "A", [OBJID], [("am", .fn amM)], TYPEID, Option.none⟩
/-- Left edge of the diamond. -/
def b1Decl : ClsDecl := ⟨4, "B1", [3], [], TYPEID, Option.none⟩
/-- Right edge of the diamond. -/
def b2Decl : ClsDecl := ⟨5, "B2", [3], [], TYPEID, Option.none⟩
/-- Diamond bottom. -/
def dDecl : ClsDecl := ⟨6, "D", [4, 5], [], TYPEID, Option.none⟩
/-- Environment for the diamond scenario. -/
def envDiamond : Env := [objDecl0, typeDecl0, ilDecl0, aDecl, b1Decl, b2Decl, dDecl]
/-- A namespace with one pre-existing entry. -/
def nsPre : Namespace := [("pre", .data (.int 0))]

/-! ### Extractors over the C7 scenario results -/

/-- `Logged(Foo, logger)` over the hooked-metaclass environment. -/
def logged7 (h : String × Attr) : Env × Nat := ((Logged (env7 h) 4).toOption).getD ([], 0)
/-- The proxy class it produces. -/
def proxy7 (h : String × Attr) : ClsDecl :=
  (findCls (logged7 h).1 (logged7 h).2).getD objDecl0
/-- The combined metaclass it produces. -/
def meta7 (h : String × Attr) : ClsDecl := (findCls (logged7 h).1 5).getD objDecl0
/-- A plain (un-instrumented) subclass of `Foo`, built the ordinary way. -/
def sub7 (h : String × Attr) : Env × Nat :=
  ((createClass (env7 h) "Sub" [4] Option.none Option.none).toOption).getD ([], 0)
/-- The class object of that plain subclass. -/
def subDecl7 (h : String × Attr) : ClsDecl :=
  (findCls (sub7 h).1 (sub7 h).2).getD objDecl0

/-- The wrapped attribute installed for `baseMethod1` on the proxy of `T`. -/
def proxyAttrBase : Attr := (lookupNS proxyT.ns "baseMethod1").getD (.data .none)

/-- The combined metaclass `Logged` builds over the C7 environment, spelled
out: it subclasses both `InvocationLogger` and `MetaBar`. -/
def meta7Expect : ClsDecl := ⟨5, "InvocationLogger", [ILID, 3], [], TYPEID, Option.none⟩

/-- The proxy class `Logged` builds over the C7 environment, spelled out:
its namespace holds exactly the wrapped `foo` — and nothing the target
metaclass's construction hook would have added. -/
def proxy7Expect : ClsDecl :=
  ⟨6, "__Proxy", [4], [("foo", .fn (wrapMethod fooM "Foo"))], 5, Option.none⟩

/-- A method raising `SystemExit`, a fault not derived from `Exception`. -/
def sysM : Method := ⟨"exiter", fun _ _ _ => ([], .error ⟨"SystemExit", "0", .none⟩)⟩

/-! ## Lemmas about namespaces -/

theorem lookupNS_append (l1 l2 : Namespace) (n : String) :
    lookupNS (l1 ++ l2) n =
      match lookupNS l1 n with
      | some a => some a
      | Option.none => lookupNS l2 n := by
  induction l1 with
  | nil => simp [lookupNS]
  | cons p ps ih =>
    by_cases h : p.1 = n <;> simp [lookupNS, h, ih]

theorem lookupNS_append_some {l1 : Namespace} {n : String} {a : Attr}
    (h : lookupNS l1 n = some a) (l2 : Namespace) :
    lookupNS (l1 ++ l2) n = some a := by
  rw [lookupNS_append, h]

theorem lookupNS_append_single_ne {l1 : Namespace} {n n' : String} (h : n' ≠ n)
    (a : Attr) : lookupNS (l1 ++ [(n', a)]) n = lookupNS l1 n := by
  rw [lookupNS_append]
  cases hl : lookupNS l1 n with
  | none => simp [lookupNS, h]
  | some b => rfl

theorem lookupNS_append_single_new {l1 : Namespace} {n : String}
    (h : lookupNS l1 n = Option.none) (a : Attr) :
    lookupNS (l1 ++ [(n, a)]) n = some a := by
  rw [lookupNS_append, h]
  simp [lookupNS]

theorem lookupNS_mem {ns : Namespace} {n : String} {a : Attr}
    (h : lookupNS ns n = some a) : (n, a) ∈ ns := by
  induction ns with
  | nil => simp [lookupNS] at h
  | cons p ps ih =>
    by_cases hp : p.1 = n
    · simp [lookupNS, hp] at h
      cases p with
      | mk k v =>
        simp only at hp h
        subst hp h
        exact List.mem_cons_self _ _
    · simp [lookupNS, hp] at h
      exact List.mem_cons_of_mem _ (ih h)

theorem lookupNS_none_not_mem {ns : Namespace} {n : String}
    (h : lookupNS ns n = Option.none) : n ∉ nsKeys ns := by
  induction ns with
  | nil => simp [nsKeys]
  | cons p ps ih =>
    by_cases hp : p.1 = n
    · simp [lookupNS, hp] at h
    · simp [lookupNS, hp] at h
      simp [nsKeys]
      exact ⟨fun hh => hp hh.symm, by simpa [nsKeys] using ih h⟩

theorem nsKeys_append (l1 l2 : Namespace) :
    nsKeys (l1 ++ l2) = nsKeys l1 ++ nsKeys l2 := by
  simp [nsKeys]

/-! ## Generic fold lemmas -/

theorem foldl_lookup_mono {α : Type} (f : Namespace → α → Namespace)
    (hf : ∀ ns x n a, lookupNS ns n = some a → lookupNS (f ns x) n = some a) :
    ∀ (l : List α) (ns : Namespace) (n : String) (a : Attr),
      lookupNS ns n = some a → lookupNS (l.foldl f ns) n = some a := by
  intro l
  induction l with
  | nil => intro ns n a h; simpa using h
  | cons x xs ih => intro ns n a h; exact ih (f ns x) n a (hf ns x n a h)

theorem foldl_nodup {α : Type} (f : Namespace → α → Namespace)
    (hf : ∀ ns x, (nsKeys ns).Nodup → (nsKeys (f ns x)).Nodup) :
    ∀ (l : List α) (ns : Namespace), (nsKeys ns).Nodup → (nsKeys (l.foldl f ns)).Nodup := by
  intro l
  induction l with
  | nil => intro ns h; simpa using h
  | cons x xs ih => intro ns h; exact ih (f ns x) (hf ns x h)

theorem foldl_shape {α : Type} (f : Namespace → α → Namespace)
    (P : String → Attr → Prop)
    (hmono : ∀ ns x n a, lookupNS ns n = some a → lookupNS (f ns x) n = some a)
    (hstep : ∀ ns x n, lookupNS (f ns x) n = lookupNS ns n ∨
      ∃ a, lookupNS (f ns x) n = some a ∧ P n a) :
    ∀ (l : List α) (ns : Namespace) (n : String),
      lookupNS (l.foldl f ns) n = lookupNS ns n ∨
        ∃ a, lookupNS (l.foldl f ns) n = some a ∧ P n a := by
  intro l
  induction l with
  | nil => intro ns n; left; rfl
  | cons x xs ih =>
    intro ns n
    rcases hstep ns x n with heq | ⟨a, ha, hp⟩
    · rcases ih (f ns x) n with h2 | ⟨a, ha, hp⟩
      · left; rw [List.foldl_cons, h2, heq]
      · right; exact ⟨a, by rw [List.foldl_cons]; exact ha, hp⟩
    · right
      exact ⟨a, foldl_lookup_mono f hmono xs (f ns x) n a ha, hp⟩

theorem foldl_inv {α β : Type} (f : β → α → β) (P : β → Prop)
    (hf : ∀ b x, P b → P (f b x)) :
    ∀ (l : List α) (b : β), P b → P (l.foldl f b) := by
  intro l
  induction l with
  | nil => intro b h; simpa using h
  | cons x xs ih => intro b h; exact ih (f b x) (hf b x h)

/-! ## Consistency lemmas -/

theorem nsContains_false {ns : Namespace} {n : String} (h : nsContains ns n = false) :
    lookupNS ns n = Option.none := by
  unfold nsContains at h
  cases hl : lookupNS ns n with
  | none => rfl
  | some a => rw [hl] at h; simp at h

theorem envConsistentB_to_P {env : Env} (h : envConsistentB env = true) :
    envConsistentP env := by
  intro d hd n a ha
  have hall := (List.all_eq_true.mp h) d hd
  have hattr := (List.all_eq_true.mp hall) (n, a) (lookupNS_mem ha)
  cases a with
  | fn m => simpa [attrOkB, AttrOkL] using hattr
  | boundLam m l s => simp [attrOkB] at hattr
  | data v => simp [AttrOkL]

theorem findCls_mem {env : Env} {i : Nat} {d : ClsDecl} (h : findCls env i = some d) :
    d ∈ env :=
  List.mem_of_find?_eq_some h

theorem firstNs_consistent {env : Env} (hcons : envConsistentP env) :
    ∀ (l : List Nat) (n : String) (a : Attr), firstNs env l n = some a → AttrOkL n a := by
  intro l
  induction l with
  | nil => intro n a h; simp [firstNs] at h
  | cons i rest ih =>
    intro n a h
    unfold firstNs at h
    cases hfind : findCls env i with
    | none => simp only [hfind] at h; exact ih n a h
    | some d =>
      simp only [hfind] at h
      cases hl : lookupNS d.ns n with
      | none => simp only [hl] at h; exact ih n a h
      | some b =>
        simp only [hl] at h
        cases h
        exact hcons d (findCls_mem hfind) n a hl

theorem getattr_consistent {env : Env} {fuel c : Nat} {n : String} {a : Attr}
    (hcons : envConsistentP env) (h : getattrCls env fuel c n = some a) : AttrOkL n a := by
  unfold getattrCls at h
  cases hm : mroF env fuel c with
  | none => rw [hm] at h; cases h
  | some l => rw [hm] at h; exact firstNs_consistent hcons l n a h

/-! ## Behaviour of one discovery step -/

theorem processName_mono (env : Env) (fuel c : Nat) (cn : String) (ns : Namespace)
    (n0 n : String) (a : Attr) (h : lookupNS ns n = some a) :
    lookupNS (processName env fuel c cn ns n0) n = some a := by
  unfold processName
  repeat' split
  all_goals first
    | exact lookupNS_append_some h _
    | exact h

theorem processName_nodup (env : Env) (fuel c : Nat) (cn : String) (ns : Namespace)
    (n0 : String) (h : (nsKeys ns).Nodup) :
    (nsKeys (processName env fuel c cn ns n0)).Nodup := by
  unfold processName
  split
  case isTrue hcond =>
    have hnone : lookupNS ns n0 = Option.none := by
      have hb : nsContains ns n0 = false := by
        rcases Bool.and_eq_true _ _ |>.mp hcond with ⟨h1, _⟩
        simpa using h1
      exact nsContains_false hb
    have hnot : n0 ∉ nsKeys ns := lookupNS_none_not_mem hnone
    split
    · split
      · rw [nsKeys_append]
        simp only [nsKeys, List.map_cons, List.map_nil]
        rw [List.nodup_append]
        refine ⟨h, List.nodup_singleton _, ?_⟩
        intro x hx
        simp only [List.mem_singleton]
        intro he
        exact hnot (he ▸ hx)
      · exact h
    · exact h
  case isFalse => exact h

theorem processName_shape (env : Env) (fuel c : Nat) (cn : String)
    (hcons : envConsistentP env) (ns : Namespace) (n0 n : String) :
    lookupNS (processName env fuel c cn ns n0) n = lookupNS ns n ∨
      ∃ a, lookupNS (processName env fuel c cn ns n0) n = some a ∧
        ∃ m, a = Attr.fn (wrapMethod m cn) ∧ m.name = n := by
  unfold processName
  split
  case isTrue hcond =>
    have hnone : lookupNS ns n0 = Option.none := by
      have hb : nsContains ns n0 = false := by
        rcases Bool.and_eq_true _ _ |>.mp hcond with ⟨h1, _⟩
        simpa using h1
      exact nsContains_false hb
    split
    case h_1 a ha =>
      split
      case isTrue hcall =>
        by_cases hn : n0 = n
        · subst hn
          right
          have hok : AttrOkL n0 a := getattr_consistent hcons ha
          cases a with
          | fn m =>
            refine ⟨Attr.fn (wrapMethod m cn), ?_, m, rfl, by simpa [AttrOkL] using hok⟩
            simpa [wrapAttr, Attr.asMethod] using lookupNS_append_single_new hnone (wrapAttr (.fn m) cn)
          | boundLam m l s => exact absurd hok (by simp [AttrOkL])
          | data v => simp [Attr.callable] at hcall
        · left; exact lookupNS_append_single_ne hn _
      case isFalse => left; rfl
    case h_2 => left; rfl
  case isFalse => left; rfl

/-! ## Master lemmas for `_overwriteMethods` -/

theorem overwrite_mono (env : Env) : ∀ (fuel c : Nat) (ns : Namespace) (cn n : String)
    (a : Attr), lookupNS ns n = some a →
    lookupNS (overwriteMethods env fuel c ns cn) n = some a := by
  intro fuel
  induction fuel with
  | zero => intro c ns cn n a h; simpa [overwriteMethods] using h
  | succ f ih =>
    intro c ns cn n a h
    unfold overwriteMethods
    cases hfind : findCls env c with
    | none => simpa using h
    | some d =>
      simp only
      refine foldl_lookup_mono _ (fun ns' b n' a' h' => ih b ns' cn n' a' h') _ _ n a ?_
      exact foldl_lookup_mono _
        (fun ns' x n' a' h' => processName_mono env (f + 1) c cn ns' x n' a' h') _ ns n a h

theorem overwrite_nodup (env : Env) : ∀ (fuel c : Nat) (ns : Namespace) (cn : String),
    (nsKeys ns).Nodup → (nsKeys (overwriteMethods env fuel c ns cn)).Nodup := by
  intro fuel
  induction fuel with
  | zero => intro c ns cn h; simpa [overwriteMethods] using h
  | succ f ih =>
    intro c ns cn h
    unfold overwriteMethods
    cases hfind : findCls env c with
    | none => simpa using h
    | some d =>
      simp only
      refine foldl_nodup _ (fun ns' b h' => ih b ns' cn h') _ _ ?_
      exact foldl_nodup _
        (fun ns' x h' => processName_nodup env (f + 1) c cn ns' x h') _ ns h

theorem overwrite_shape (env : Env) (hcons : envConsistentP env) :
    ∀ (fuel c : Nat) (ns : Namespace) (cn n : String),
      lookupNS (overwriteMethods env fuel c ns cn) n = lookupNS ns n ∨
        ∃ m, lookupNS (overwriteMethods env fuel c ns cn) n =
          some (Attr.fn (wrapMethod m cn)) ∧ m.name = n := by
  intro fuel
  induction fuel with
  | zero => intro c ns cn n; left; simp [overwriteMethods]
  | succ f ih =>
    intro c ns cn n
    unfold overwriteMethods
    cases hfind : findCls env c with
    | none => left; simp
    | some d =>
      simp only
      have houter := foldl_shape _
        (fun n' a' => ∃ m, a' = Attr.fn (wrapMethod m cn) ∧ m.name = n')
        (fun ns' b n' a' h' => overwrite_mono env f b ns' cn n' a' h')
        (fun ns' b n' => by
          rcases ih b ns' cn n' with he | ⟨m, hm, hname⟩
          · exact Or.inl he
          · exact Or.inr ⟨_, hm, m, rfl, hname⟩)
        d.bases
        ((dirCls env (f + 1) c).foldl (fun acc x => processName env (f + 1) c cn acc x) ns) n
      have hinner := foldl_shape _
        (fun n' a' => ∃ m, a' = Attr.fn (wrapMethod m cn) ∧ m.name = n')
        (fun ns' x n' a' h' => processName_mono env (f + 1) c cn ns' x n' a' h')
        (fun ns' x n' => by
          rcases processName_shape env (f + 1) c cn hcons ns' x n' with he | ⟨a, ha, m, rfl, hname⟩
          · exact Or.inl he
          · exact Or.inr ⟨_, ha, m, rfl, hname⟩)
        (dirCls env (f + 1) c) ns n
      rcases houter with he | ⟨a, ha, m, rfl, hname⟩
      · rcases hinner with he2 | ⟨a, ha2, m, rfl, hname⟩
        · left; rw [he, he2]
        · right; exact ⟨m, by rw [he, ha2], hname⟩
      · right; exact ⟨m, ha, hname⟩

/-! ## Fresh ids and environment frames -/

theorem foldl_max_init_le : ∀ (l : Env) (acc : Nat),
    acc ≤ l.foldl (fun a d => max a d.id) acc := by
  intro l
  induction l with
  | nil => intro acc; simp
  | cons e t ih => intro acc; exact le_trans (le_max_left _ _) (ih (max acc e.id))

theorem mem_id_le_foldl : ∀ (l : Env) (acc : Nat) (d : ClsDecl), d ∈ l →
    d.id ≤ l.foldl (fun a x => max a x.id) acc := by
  intro l
  induction l with
  | nil => intro acc d hd; simp at hd
  | cons e t ih =>
    intro acc d hd
    rcases List.mem_cons.mp hd with rfl | hmem
    · exact le_trans (le_max_right _ _) (foldl_max_init_le t _)
    · exact ih (max acc e.id) d hmem

theorem mem_id_lt_freshId {env : Env} {d : ClsDecl} (h : d ∈ env) :
    d.id < freshId env :=
  Nat.lt_succ_of_le (mem_id_le_foldl env 0 d h)

theorem findCls_id {env : Env} {i : Nat} {d : ClsDecl} (h : findCls env i = some d) :
    d.id = i := by
  have := List.find?_some h
  exact of_decide_eq_true this

theorem findCls_cons_ne {env : Env} {d0 : ClsDecl} {i : Nat} (h : d0.id ≠ i) :
    findCls (d0 :: env) i = findCls env i := by
  unfold findCls
  rw [List.find?_cons_of_neg]
  simpa using h

theorem findCls_fresh_frame {env : Env} {d0 : ClsDecl} {i : Nat} {d : ClsDecl}
    (hid : freshId env ≤ d0.id) (h : findCls env i = some d) :
    findCls (d0 :: env) i = some d := by
  have hlt : d.id < freshId env := mem_id_lt_freshId (findCls_mem h)
  have : d0.id ≠ i := by
    have := findCls_id h
    omega
  rw [findCls_cons_ne this]
  exact h

/-! ## Inverting `createClass` and `Logged` -/

theorem createClass_ok_inv {env : Env} {pn : String} {bases : List Nat}
    {em : Option Nat} {kw : Option String} {env2 : Env} {nid : Nat}
    (h : createClass env pn bases em kw = .ok (env2, nid)) :
    nid = freshId env ∧ ∃ ns', env2 =
      ⟨freshId env, pn, bases, ns', metaDefault env em bases, Option.none⟩ :: env := by
  simp only [createClass] at h
  split at h
  · split at h
    · split at h
      · cases h
      · cases h; exact ⟨rfl, _, rfl⟩
    · cases h; exact ⟨rfl, _, rfl⟩
    · cases h; exact ⟨rfl, _, rfl⟩
  · cases h

theorem envNoHooksB_to_P {env : Env} (h : envNoHooksB env = true) : envNoHooksP env := by
  intro d hd
  have := (List.all_eq_true.mp h) d hd
  simpa using this

theorem resolveConstruction_noHooks {env : Env} (h : envNoHooksP env) :
    ∀ l : List Nat, resolveConstruction env l = .ilWrap ∨
      resolveConstruction env l = .dflt := by
  intro l
  induction l with
  | nil => right; rfl
  | cons i rest ih =>
    by_cases hi : i = ILID
    · left; simp [resolveConstruction, hi]
    · cases hfind : findCls env i with
      | none => simpa [resolveConstruction, hi, hfind] using ih
      | some d =>
        simpa [resolveConstruction, hi, hfind, h d (findCls_mem hfind)] using ih

theorem logged_ok_inv {env : Env} {c : Nat} {d : ClsDecl} {env' : Env} {pid : Nat}
    (hnh : envNoHooksP env) (hd : findCls env c = some d)
    (h : Logged env c = .ok (env', pid)) :
    ∃ env1 mId,
      createClass env "InvocationLogger" [ILID, d.metaId] Option.none Option.none =
        .ok (env1, mId) ∧
      mId = freshId env ∧
      env1 = ⟨freshId env, "InvocationLogger", [ILID, d.metaId], [],
              metaDefault env Option.none [ILID, d.metaId], Option.none⟩ :: env ∧
      pid = freshId env1 ∧
      ∃ pns, env' = ⟨freshId env1, "__Proxy", [c], pns, mId, Option.none⟩ :: env1 ∧
        (pns = [] ∨ pns = overwriteMethods env1 (env1.length + 1) c [] d.pyname) := by
  unfold Logged at h
  split at h
  case h_1 heq => rw [hd] at heq; cases heq
  case h_2 d' heq =>
    rw [hd] at heq
    cases heq
    split at h
    case h_1 e h1 => cases h
    case h_2 env1 mId h1 =>
      -- characterize the first creation: with no hooks and no class_name
      -- keyword only the plain `type.__new__` branch can succeed
      have hstep1 := h1
      simp only [createClass] at hstep1
      have hmeta : env1 =
          ⟨freshId env, "InvocationLogger", [ILID, d.metaId], [],
           metaDefault env Option.none [ILID, d.metaId], Option.none⟩ :: env ∧
          mId = freshId env := by
        split at hstep1
        · split at hstep1
          case h_1 => cases hstep1
          case h_2 hn ha heq2 =>
            rcases resolveConstruction_noHooks hnh
              ((mroF env (env.length + 1)
                (metaDefault env Option.none [ILID, d.metaId])).getD
                  [metaDefault env Option.none [ILID, d.metaId]]) with hr | hr <;>
              rw [hr] at heq2 <;> cases heq2
          case h_3 => cases hstep1; exact ⟨rfl, rfl⟩
        · cases hstep1
      obtain ⟨henv1, hmid⟩ := hmeta
      have hnh1 : envNoHooksP env1 := by
        rw [henv1]
        intro dd hdd
        rcases List.mem_cons.mp hdd with rfl | hmem
        · rfl
        · exact hnh dd hmem
      have hstep2 := h
      simp only [createClass] at hstep2
      refine ⟨env1, mId, h1, hmid, henv1, ?_⟩
      split at hstep2
      · split at hstep2
        case h_1 =>
          cases hstep2
          refine ⟨rfl, _, rfl, Or.inr ?_⟩
          simp [List.foldl]
        case h_2 hn ha heq2 =>
          rcases resolveConstruction_noHooks hnh1
            ((mroF env1 (env1.length + 1) (metaDefault env1 (some mId) [c])).getD
              [metaDefault env1 (some mId) [c]]) with hr | hr <;>
            rw [hr] at heq2 <;> cases heq2
        case h_3 =>
          cases hstep2
          exact ⟨rfl, [], rfl, Or.inl rfl⟩
      · cases hstep2

/-! ## Lemmas about the instance path -/

theorem lookup_setAttrD (d : Namespace) (n : String) (a : Attr) (n' : String) :
    lookupNS (setAttrD d n a) n' = if n = n' then some a else lookupNS d n' := by
  induction d with
  | nil => by_cases h : n = n' <;> simp [setAttrD, lookupNS, h]
  | cons p ps ih =>
    unfold setAttrD
    by_cases hp : p.1 = n
    · rw [if_pos hp]
      by_cases h : n = n'
      · subst h; simp [lookupNS]
      · have hpn : p.1 ≠ n' := fun he => h (hp.symm.trans he)
        simp [lookupNS, h, hpn]
    · rw [if_neg hp]
      by_cases h2 : p.1 = n'
      · have hne : n ≠ n' := fun he => hp (h2.trans he.symm)
        simp [lookupNS, h2, hne]
      · simp [lookupNS, h2, ih]

theorem objStep_ok_inv {env : Env} {fuel cid : Nat} {ty : String}
    {acc : Except PyErr Obj} {n : String} {ob' : Obj}
    (h : objStep env fuel cid ty acc n = .ok ob') :
    ∃ ob, acc = .ok ob ∧ ob'.id = ob.id ∧ ob'.clsId = ob.clsId ∧
      (ob'.dict = ob.dict ∨
        ∃ a, getattrCls env fuel cid n = some a ∧ a.callable = true ∧
          ob'.dict = setAttrD ob.dict n (bindAttr a ty ob.id)) := by
  cases acc with
  | error e => simp [objStep] at h
  | ok ob =>
    simp only [objStep] at h
    split at h
    · cases h; exact ⟨ob', rfl, rfl, rfl, Or.inl rfl⟩
    · split at h
      case h_1 => cases h
      case h_2 a heq =>
        split at h
        case isTrue hcall =>
          cases h
          exact ⟨ob, rfl, rfl, rfl, Or.inr ⟨a, heq, hcall, rfl⟩⟩
        case isFalse => cases h; exact ⟨ob', rfl, rfl, rfl, Or.inl rfl⟩

theorem objfold_inv (env : Env) (fuel cid : Nat) (ty : String) :
    ∀ (l : List String) (acc : Except PyErr Obj) (ob' : Obj),
      l.foldl (objStep env fuel cid ty) acc = .ok ob' →
      ∃ ob, acc = .ok ob ∧ ob'.id = ob.id ∧ ob'.clsId = ob.clsId ∧
        ∀ n, lookupNS ob'.dict n ≠ lookupNS ob.dict n →
          ∃ a, getattrCls env fuel cid n = some a ∧ a.callable = true := by
  intro l
  induction l with
  | nil =>
    intro acc ob' h
    exact ⟨ob', h, rfl, rfl, fun n hn => absurd rfl hn⟩
  | cons x xs ih =>
    intro acc ob' h
    obtain ⟨ob1, hacc1, hid1, hcls1, hdict1⟩ := ih (objStep env fuel cid ty acc x) ob' h
    obtain ⟨ob0, hacc0, hid0, hcls0, hd0⟩ := objStep_ok_inv hacc1
    refine ⟨ob0, hacc0, hid1.trans hid0, hcls1.trans hcls0, ?_⟩
    intro n hn
    by_cases hmid : lookupNS ob1.dict n = lookupNS ob0.dict n
    · exact hdict1 n (fun he => hn (he.trans hmid))
    · rcases hd0 with he | ⟨a, hga, hcall, hset⟩
      · exact absurd (by rw [he]) hmid
      · rw [hset, lookup_setAttrD] at hmid
        by_cases hx : x = n
        · subst hx; exact ⟨a, hga, hcall⟩
        · rw [if_neg hx] at hmid; exact absurd rfl hmid

theorem objfold_ok (env : Env) (fuel cid : Nat) (ty : String) :
    ∀ l : List String,
      (∀ n ∈ l, startsWithUnderscore n = false → (getattrCls env fuel cid n).isSome = true) →
      ∀ acc : Except PyErr Obj, isOkE acc = true →
        isOkE (l.foldl (objStep env fuel cid ty) acc) = true := by
  intro l
  induction l with
  | nil => intro _ acc h; simpa using h
  | cons x xs ih =>
    intro hall acc hacc
    refine ih (fun n hn h2 => hall n (List.mem_cons_of_mem _ hn) h2) _ ?_
    cases acc with
    | error e => simp [isOkE] at hacc
    | ok ob =>
      unfold objStep
      by_cases hu : startsWithUnderscore x = true
      · simp [hu, isOkE]
      · have hres := hall x (List.mem_cons_self _ _) (by simpa using hu)
        cases hg : getattrCls env fuel cid x with
        | none => rw [hg] at hres; simp at hres
        | some a =>
          by_cases hcall : a.callable
          · simp [hu, hg, hcall, isOkE]
          · simp [hu, hg, hcall, isOkE]

theorem loggedObj_ids {env : Env} {o o' : Obj} (h : LoggedObj env o = .ok o') :
    o'.id = o.id ∧ o'.clsId = o.clsId := by
  unfold LoggedObj overwriteMethodsOnObj at h
  obtain ⟨ob, hacc, hid, hcls, _⟩ := objfold_inv env _ o.clsId _ _ _ _ h
  cases hacc
  exact ⟨hid, hcls⟩

theorem heap_frame (env : Env) :
    ∀ (heap : List Obj) (heap' : List Obj) (oid : Nat),
      LoggedObjHeap env heap oid = .ok heap' →
      (∀ j, j ≠ oid → findObj heap' j = findObj heap j) ∧
      (∀ o', findObj heap' oid = some o' →
        ∃ o, findObj heap oid = some o ∧ o'.id = o.id ∧ o'.clsId = o.clsId) := by
  intro heap
  induction heap with
  | nil =>
    intro heap' oid h
    have : heap' = [] := by
      simp only [LoggedObjHeap, List.mapM_nil] at h
      cases h
      rfl
    subst this
    exact ⟨fun j hj => rfl, fun o' h' => by simp [findObj] at h'⟩
  | cons o t ih =>
    intro heap' oid h
    simp only [LoggedObjHeap, List.mapM_cons] at h
    cases hfo : (if o.id = oid then LoggedObj env o else .ok o) with
    | error e => rw [hfo] at h; simp [Bind.bind, Except.bind] at h
    | ok o' =>
      rw [hfo] at h
      cases hft : t.mapM (fun x => if x.id = oid then LoggedObj env x else .ok x) with
      | error e =>
        rw [hft] at h
        simp [Bind.bind, Except.bind] at h
      | ok t' =>
        rw [hft] at h
        simp only [Bind.bind, Except.bind, pure, Except.pure] at h
        cases h
        have iht := ih t' oid (by simpa only [LoggedObjHeap] using hft)
        constructor
        · intro j hj
          by_cases hoid : o.id = oid
          · rw [if_pos hoid] at hfo
            have hido : o'.id = o.id := (loggedObj_ids hfo).1
            have h1 : findObj (o' :: t') j = findObj t' j := by
              unfold findObj
              rw [List.find?_cons_of_neg]
              simp [hido, hoid, Ne.symm hj]
            have h2 : findObj (o :: t) j = findObj t j := by
              unfold findObj
              rw [List.find?_cons_of_neg]
              simp [hoid, Ne.symm hj]
            rw [h1, h2]
            exact iht.1 j hj
          · rw [if_neg hoid] at hfo
            cases hfo
            by_cases hj2 : o.id = j
            · unfold findObj
              rw [List.find?_cons_of_pos, List.find?_cons_of_pos] <;> simp [hj2]
            · unfold findObj
              rw [List.find?_cons_of_neg, List.find?_cons_of_neg] <;> try simp [hj2]
              exact iht.1 j hj
        · intro o'' h''
          by_cases hoid : o.id = oid
          · rw [if_pos hoid] at hfo
            obtain ⟨hido, hclso⟩ := loggedObj_ids hfo
            have : findObj (o' :: t') oid = some o' := by
              unfold findObj
              rw [List.find?_cons_of_pos]
              simp [hido, hoid]
            rw [this] at h''
            cases h''
            refine ⟨o, ?_, hido, hclso⟩
            unfold findObj
            rw [List.find?_cons_of_pos]
            simp [hoid]
          · rw [if_neg hoid] at hfo
            cases hfo
            have h1 : findObj (o :: t') oid = findObj t' oid := by
              unfold findObj
              rw [List.find?_cons_of_neg]
              simp [hoid]
            rw [h1] at h''
            obtain ⟨o0, ho0, hids⟩ := iht.2 o'' h''
            refine ⟨o0, ?_, hids⟩
            unfold findObj
            rw [List.find?_cons_of_neg]
            · exact ho0
            · simp [hoid]

/-! ## The construction path never reads class dictionaries -/

theorem findCls_mapNs (f : Nat → Namespace → Namespace) (env : Env) (i : Nat) :
    findCls (mapNs f env) i = (findCls env i).map (mapNsDecl f) := by
  unfold findCls mapNs
  rw [List.find?_map]
  rfl

theorem freshId_mapNs (f : Nat → Namespace → Namespace) (env : Env) :
    freshId (mapNs f env) = freshId env := by
  unfold freshId mapNs
  rw [List.foldl_map]
  rfl

theorem length_mapNs (f : Nat → Namespace → Namespace) (env : Env) :
    (mapNs f env).length = env.length := by
  simp [mapNs]

theorem mapM_option_congr {α β : Type} {f g : α → Option β} :
    ∀ l : List α, (∀ a ∈ l, f a = g a) → l.mapM f = l.mapM g := by
  intro l
  induction l with
  | nil => intro _; rfl
  | cons x xs ih =>
    intro h
    simp only [List.mapM_cons, h x (List.mem_cons_self _ _),
      ih (fun a ha => h a (List.mem_cons_of_mem _ ha))]

theorem mroF_mapNs (f : Nat → Namespace → Namespace) (env : Env) :
    ∀ (fuel i : Nat), mroF (mapNs f env) fuel i = mroF env fuel i := by
  intro fuel
  induction fuel with
  | zero => intro i; rfl
  | succ fl ih =>
    intro i
    unfold mroF
    rw [findCls_mapNs]
    cases hfc : findCls env i with
    | none => rfl
    | some d =>
      simp only [Option.map_some']
      show (match (mapNsDecl f d).bases.mapM (mroF (mapNs f env) fl) with
        | Option.none => Option.none
        | some ms => _) = _
      have hbases : (mapNsDecl f d).bases = d.bases := rfl
      rw [hbases, mapM_option_congr d.bases (fun b _ => ih b)]

theorem mapNs_congr {f1 f2 : Nat → Namespace → Namespace} (env : Env)
    (h : ∀ d ∈ env, f1 d.id d.ns = f2 d.id d.ns) : mapNs f1 env = mapNs f2 env := by
  unfold mapNs
  refine List.map_congr_left ?_
  intro d hd
  unfold mapNsDecl
  rw [h d hd]

theorem cons_mapNs (t : ClsDecl) (f : Nat → Namespace → Namespace) (env : Env)
    (h : ∀ d ∈ env, d.id ≠ t.id) :
    t :: mapNs f env = mapNs (fun x ns => if x = t.id then ns else f x ns) (t :: env) := by
  unfold mapNs
  simp only [List.map_cons]
  have h1 : mapNsDecl (fun x ns => if x = t.id then ns else f x ns) t = t := by
    simp [mapNsDecl]
  rw [h1]
  have h2 : env.map (mapNsDecl f) =
      env.map (mapNsDecl (fun x ns => if x = t.id then ns else f x ns)) := by
    refine List.map_congr_left ?_
    intro d hd
    simp [mapNsDecl, h d hd]
  rw [h2]

theorem newClassOk_mapNs (f : Nat → Namespace → Namespace) (env : Env)
    (bases : List Nat) (mid : Nat) :
    newClassOk (mapNs f env) bases mid = newClassOk env bases mid := by
  unfold newClassOk
  rw [freshId_mapNs, length_mapNs]
  rw [cons_mapNs ⟨freshId env, "", bases, [], mid, Option.none⟩ f env
    (fun d hd => Nat.ne_of_lt (mem_id_lt_freshId hd))]
  rw [mroF_mapNs]

theorem resolveConstruction_mapNs (f : Nat → Namespace → Namespace) (env : Env) :
    ∀ l : List Nat, resolveConstruction (mapNs f env) l = resolveConstruction env l := by
  intro l
  induction l with
  | nil => rfl
  | cons i rest ih =>
    by_cases hi : i = ILID
    · simp [resolveConstruction, hi]
    · rw [resolveConstruction, resolveConstruction, findCls_mapNs]
      cases hfc : findCls env i with
      | none => simpa [hi] using ih
      | some d =>
        cases hh : d.newHook with
        | none => simpa [hi, mapNsDecl, hh] using ih
        | some p => simp [hi, mapNsDecl, hh]

theorem metaDefault_mapNs (f : Nat → Namespace → Namespace) (env : Env)
    (em : Option Nat) (bases : List Nat) :
    metaDefault (mapNs f env) em bases = metaDefault env em bases := by
  cases em with
  | some m => rfl
  | none =>
    cases bases with
    | nil => rfl
    | cons b bs =>
      simp only [metaDefault]
      rw [findCls_mapNs]
      cases hfc : findCls env b <;> rfl

theorem createClass_isOkE_mapNs (f : Nat → Namespace → Namespace) (env : Env)
    (pn : String) (bases : List Nat) (em : Option Nat) (kw : Option String) :
    isOkE (createClass (mapNs f env) pn bases em kw) =
      isOkE (createClass env pn bases em kw) := by
  simp only [createClass]
  rw [newClassOk_mapNs, freshId_mapNs, length_mapNs, metaDefault_mapNs, mroF_mapNs,
    resolveConstruction_mapNs]
  split
  · split
    · cases kw <;> rfl
    · rfl
    · rfl
  · rfl

theorem createClass_noKw_mapNs (f : Nat → Namespace → Namespace) (env : Env)
    (pn : String) (bases : List Nat) (em : Option Nat) :
    (∃ e, createClass env pn bases em Option.none = .error e ∧
          createClass (mapNs f env) pn bases em Option.none = .error e) ∨
    (∃ ns0, createClass env pn bases em Option.none =
        .ok (⟨freshId env, pn, bases, ns0, metaDefault env em bases, Option.none⟩ :: env,
             freshId env) ∧
      createClass (mapNs f env) pn bases em Option.none =
        .ok (⟨freshId env, pn, bases, ns0, metaDefault env em bases, Option.none⟩ ::
              mapNs f env, freshId env)) := by
  simp only [createClass]
  rw [newClassOk_mapNs, freshId_mapNs, length_mapNs, metaDefault_mapNs, mroF_mapNs,
    resolveConstruction_mapNs]
  split
  · split
    case h_1 => left; exact ⟨.keyError, rfl, rfl⟩
    case h_2 hn ha heq => right; exact ⟨[(hn, ha)], rfl, rfl⟩
    case h_3 => right; exact ⟨[], rfl, rfl⟩
  · left; exact ⟨.typeError, rfl, rfl⟩

theorem Logged_isOkE_mapNs (f : Nat → Namespace → Namespace) (env : Env) (c : Nat) :
    isOkE (Logged (mapNs f env) c) = isOkE (Logged env c) := by
  unfold Logged
  rw [findCls_mapNs]
  cases hfc : findCls env c with
  | none => rfl
  | some d =>
    simp only [Option.map_some', mapNsDecl]
    rcases createClass_noKw_mapNs f env "InvocationLogger" [ILID, d.metaId] Option.none with
      ⟨e, h1, h2⟩ | ⟨ns0, h1, h2⟩
    · rw [h1, h2]
    · rw [h1, h2]
      show isOkE (createClass
          (⟨freshId env, "InvocationLogger", [ILID, d.metaId], ns0,
            metaDefault env Option.none [ILID, d.metaId], Option.none⟩ :: mapNs f env)
          "__Proxy" [c] (some (freshId env)) (some d.pyname)) =
        isOkE (createClass
          (⟨freshId env, "InvocationLogger", [ILID, d.metaId], ns0,
            metaDefault env Option.none [ILID, d.metaId], Option.none⟩ :: env)
          "__Proxy" [c] (some (freshId env)) (some d.pyname))
      rw [cons_mapNs ⟨freshId env, "InvocationLogger", [ILID, d.metaId], ns0,
            metaDefault env Option.none [ILID, d.metaId], Option.none⟩ f env
          (fun d0 hd0 => Nat.ne_of_lt (mem_id_lt_freshId hd0))]
      exact createClass_isOkE_mapNs _ _ _ _ _ _

/-! ## Remaining helper lemmas -/

/-- Every exception kind reaches `BaseException`, so the source's
`except BaseException` clause catches every fault. -/
theorem derives_base (k : String) : derivesFrom 4 k "BaseException" = true := by
  by_cases h1 : k = "BaseException"
  · subst h1; rfl
  by_cases h2 : k = "Exception"
  · subst h2; rfl
  by_cases h3 : k = "SystemExit"
  · subst h3; rfl
  by_cases h4 : k = "KeyboardInterrupt"
  · subst h4; rfl
  by_cases h5 : k = "GeneratorExit"
  · subst h5; rfl
  unfold derivesFrom
  have hp : exnParent k = some "Exception" := by
    simp [exnParent, h1, h2, h3, h4, h5]
  rw [hp]
  have hx : derivesFrom 3 "Exception" "BaseException" = true := rfl
  simp [hx]

/-- Whatever the wrapped call does, the first sink call is the call record,
emitted before the original runs. -/
theorem wrapCall_head (m : Method) (cn : String) (inst : Value) (args : List Value)
    (kwargs : List (String × Value)) :
    (wrapCall m cn inst args kwargs).1.head? =
      some ⟨"%s(%s)", [.str (cn ++ "." ++ m.name), .str (stringify args kwargs)]⟩ := by
  unfold wrapCall
  cases hres : m.fn inst args kwargs with
  | mk tr res =>
    cases res with
    | ok v => rfl
    | error e =>
      dsimp only
      split <;> rfl

/-- Structure of a successful `Logged` run, independent of the construction
branch taken: two fresh classes are prepended and nothing else changes. -/
theorem logged_ok_struct {env : Env} {c : Nat} {env' : Env} {pid : Nat}
    (h : Logged env c = .ok (env', pid)) :
    ∃ env1 : Env, (∃ d1 : ClsDecl, d1.id = freshId env ∧ env1 = d1 :: env) ∧
      pid = freshId env1 ∧
      ∃ pd : ClsDecl, pd.id = freshId env1 ∧ pd.bases = [c] ∧ env' = pd :: env1 := by
  unfold Logged at h
  split at h
  case h_1 => cases h
  case h_2 d heq =>
    split at h
    case h_1 => cases h
    case h_2 env1 mId h1 =>
      obtain ⟨hnid, ns1, henv1⟩ := createClass_ok_inv h1
      obtain ⟨hpid, ns2, henv'⟩ := createClass_ok_inv h
      exact ⟨env1,
        ⟨⟨freshId env, "InvocationLogger", [ILID, d.metaId], ns1,
          metaDefault env Option.none [ILID, d.metaId], Option.none⟩, rfl, henv1⟩,
        hpid,
        ⟨freshId env1, "__Proxy", [c], ns2,
          metaDefault env1 (some mId) [c], Option.none⟩, rfl, rfl, henv'⟩

/-! # The claims -/

/-- C1: for every invocation of a wrapped member that completes normally, the
sink receives exactly two calls — the call record `("%s(%s)", prefix,
argsText)` before the original is invoked, then the result record
`("%s: %s", prefix, ...)` after it completes — never zero and never more than
two, and the wrapper returns the original's return value unchanged. -/
theorem C1_two_sink_calls_on_success (m : Method) (cn : String) (inst : Value)
    (args : List Value) (kwargs : List (String × Value)) (v : Value)
    (h : m.fn inst args kwargs = ([], .ok v)) :
    wrapCall m cn inst args kwargs =
      ([⟨"%s(%s)", [.str (cn ++ "." ++ m.name), .str (stringify args kwargs)]⟩,
        ⟨"%s: %s", [.str (cn ++ "." ++ m.name), v]⟩], .ok v) := by
  unfold wrapCall
  rw [h]
  rfl

/-- Witness for C1: `method3(24, 42)` returns 66 and produces exactly the two
records of the spec's scenario 2. -/
theorem C1_witness :
    method3M.fn (.obj 0) [.int 24, .int 42] [] = ([], .ok (.int 66)) ∧
    wrapCall method3M "T" (.obj 0) [.int 24, .int 42] [] =
      ([⟨"%s(%s)", [.str ("T" ++ "." ++ method3M.name), .str (stringify [.int 24, .int 42] [])]⟩,
        ⟨"%s: %s", [.str ("T" ++ "." ++ method3M.name), .int 66]⟩], .ok (.int 66)) :=
  ⟨rfl, C1_two_sink_calls_on_success method3M "T" (.obj 0) [.int 24, .int 42] [] (.int 66) rfl⟩

/-- C2: for every invocation of a wrapped member that raises a fault `e`, the
sink receives exactly two calls — the call record, then
`("%s: raised %s (\"%s\")", prefix, kindName(e), message(e))` — and `e` is
re-raised unchanged (same kind, same message, same associated state). -/
theorem C2_fault_logged_and_reraised (m : Method) (cn : String) (inst : Value)
    (args : List Value) (kwargs : List (String × Value)) (e : Exn)
    (h : m.fn inst args kwargs = ([], .error e)) :
    wrapCall m cn inst args kwargs =
      ([⟨"%s(%s)", [.str (cn ++ "." ++ m.name), .str (stringify args kwargs)]⟩,
        ⟨"%s: raised %s (\"%s\")",
         [.str (cn ++ "." ++ m.name), .str e.kind, .str e.msg]⟩],
       .error e) := by
  unfold wrapCall
  rw [h]
  simp [derives_base]

/-- Witness for C2: `method4()` raises `RuntimeError("exception")`; the two
records of the spec's scenario 3 are emitted and the same exception value
(kind, message and payload) propagates. -/
theorem C2_witness :
    method4M.fn (.obj 0) [] [] = ([], .error ⟨"RuntimeError", "exception", .none⟩) ∧
    wrapCall method4M "T" (.obj 0) [] [] =
      ([⟨"%s(%s)", [.str ("T" ++ "." ++ method4M.name), .str (stringify [] [])]⟩,
        ⟨"%s: raised %s (\"%s\")",
         [.str ("T" ++ "." ++ method4M.name), .str "RuntimeError", .str "exception"]⟩],
       .error ⟨"RuntimeError", "exception", .none⟩) :=
  ⟨rfl, C2_fault_logged_and_reraised method4M "T" (.obj 0) [] []
    ⟨"RuntimeError", "exception", .none⟩ rfl⟩

/-- C3 counterexample: for `method1` (returns `None`), the third value the
sink receives in the result record is the raw value `None`, not its textual
rendering `"None"`; the test file asserts exactly this raw value
(`call('%s: %s', '_Object.method1', None)`). -/
theorem C3_counterexample :
    (wrapCall method1M "T" (.obj 0) [] []).1 =
      [⟨"%s(%s)", [.str "T.method1", .str ""]⟩,
       ⟨"%s: %s", [.str "T.method1", Value.none]⟩] ∧
    (wrapCall method1M "T" (.obj 0) [] []).1 ≠
      [⟨"%s(%s)", [.str "T.method1", .str ""]⟩,
       ⟨"%s: %s", [.str "T.method1", .str "None"]⟩] := by
  exact ⟨rfl, by decide⟩

/-- C3 amended: on normal completion with value `v`, the third value passed
to the sink in the result record is `v` itself, unrendered; rendering the
record's values (as the sink's `%s` placeholders do) yields the prefix and
`str(v)` — so a member returning no value renders as the canonical text
`"None"` at the sink, while the sink is handed the raw absence-of-value
marker. -/
theorem C3_raw_result_value (m : Method) (cn : String) (inst : Value)
    (args : List Value) (kwargs : List (String × Value)) (v : Value)
    (h : m.fn inst args kwargs = ([], .ok v)) :
    (wrapCall m cn inst args kwargs).1 =
      [⟨"%s(%s)", [.str (cn ++ "." ++ m.name), .str (stringify args kwargs)]⟩,
       ⟨"%s: %s", [.str (cn ++ "." ++ m.name), v]⟩] ∧
    (SinkCall.mk "%s: %s" [.str (cn ++ "." ++ m.name), v]).vals.map Value.render =
      [cn ++ "." ++ m.name, Value.render v] := by
  constructor
  · unfold wrapCall
    rw [h]
    rfl
  · rfl

/-- Witness for C3 (amended): `method1()` passes the raw `None` to the sink
and its rendering is the canonical text `"None"`. -/
theorem C3_witness :
    method1M.fn (.obj 0) [] [] = ([], .ok .none) ∧
    ((wrapCall method1M "T" (.obj 0) [] []).1 =
      [⟨"%s(%s)", [.str ("T" ++ "." ++ method1M.name), .str (stringify [] [])]⟩,
       ⟨"%s: %s", [.str ("T" ++ "." ++ method1M.name), Value.none]⟩] ∧
     (SinkCall.mk "%s: %s" [.str ("T" ++ "." ++ method1M.name), Value.none]).vals.map
        Value.render = ["T" ++ "." ++ method1M.name, Value.render Value.none]) ∧
    Value.render Value.none = "None" :=
  ⟨rfl, C3_raw_result_value method1M "T" (.obj 0) [] [] .none rfl, rfl⟩

/-- C10: the fault branch covers every raisable fault, including kinds not
derived from the ordinary `Exception` base (`SystemExit`,
`KeyboardInterrupt`, `GeneratorExit`): the `except BaseException` handler
matches them, the raised record is emitted after whatever the body itself
logged, and the fault is re-raised unchanged. -/
theorem C10_base_exceptions_caught (m : Method) (cn : String) (inst : Value)
    (args : List Value) (kwargs : List (String × Value)) (tr : List SinkCall)
    (e : Exn)
    (hkind : e.kind = "SystemExit" ∨ e.kind = "KeyboardInterrupt" ∨
      e.kind = "GeneratorExit")
    (h : m.fn inst args kwargs = (tr, .error e)) :
    derivesFrom 4 e.kind "BaseException" = true ∧
    wrapCall m cn inst args kwargs =
      (⟨"%s(%s)", [.str (cn ++ "." ++ m.name), .str (stringify args kwargs)]⟩ ::
        (tr ++ [⟨"%s: raised %s (\"%s\")",
                 [.str (cn ++ "." ++ m.name), .str e.kind, .str e.msg]⟩]),
       .error e) := by
  refine ⟨derives_base e.kind, ?_⟩
  unfold wrapCall
  rw [h]
  simp [derives_base]

/-- Witness for C10: a member raising `SystemExit` still gets the two-record
bracket and the `SystemExit` fault propagates unchanged. -/
theorem C10_witness :
    ((⟨"SystemExit", "0", .none⟩ : Exn).kind = "SystemExit" ∨
      (⟨"SystemExit", "0", .none⟩ : Exn).kind = "KeyboardInterrupt" ∨
      (⟨"SystemExit", "0", .none⟩ : Exn).kind = "GeneratorExit") ∧
    sysM.fn (.obj 0) [] [] = ([], .error ⟨"SystemExit", "0", .none⟩) ∧
    (derivesFrom 4 "SystemExit" "BaseException" = true ∧
     wrapCall sysM "T" (.obj 0) [] [] =
       (⟨"%s(%s)", [.str ("T" ++ "." ++ sysM.name), .str (stringify [] [])]⟩ ::
         ([] ++ [⟨"%s: raised %s (\"%s\")",
                  [.str ("T" ++ "." ++ sysM.name), .str "SystemExit", .str "0"]⟩]),
        .error ⟨"SystemExit", "0", .none⟩)) :=
  ⟨Or.inl rfl, rfl,
   C10_base_exceptions_caught sysM "T" (.obj 0) [] [] [] ⟨"SystemExit", "0", .none⟩
     (Or.inl rfl) rfl⟩

/-- C4: for every member installed on a `Logged` proxy — ancestor-declared
ones included — the stored attribute is the wrap of some original under the
most-derived (target) type's label, the member keeps its name, and every
invocation's call record carries the prefix `<TargetLabel>.<memberName>`. -/
theorem C4_prefix_most_derived (env : Env) (c : Nat) (d : ClsDecl) (env' : Env)
    (pid : Nat) (p : ClsDecl) (n : String) (a : Attr)
    (hcons : envConsistentB env = true) (hnh : envNoHooksB env = true)
    (hd : findCls env c = some d)
    (hL : Logged env c = .ok (env', pid))
    (hp : findCls env' pid = some p)
    (ha : lookupNS p.ns n = some a) :
    ∃ m : Method, a = Attr.fn (wrapMethod m d.pyname) ∧ m.name = n ∧
      ∀ inst args kwargs,
        ((wrapMethod m d.pyname).fn inst args kwargs).1.head? =
          some ⟨"%s(%s)", [.str (d.pyname ++ "." ++ n), .str (stringify args kwargs)]⟩ := by
  obtain ⟨env1, mId, h1, hmid, henv1, hpid, pns, henv', hpns⟩ :=
    logged_ok_inv (envNoHooksB_to_P hnh) hd hL
  have hpd : p = ⟨freshId env1, "__Proxy", [c], pns, mId, Option.none⟩ := by
    rw [henv', hpid] at hp
    unfold findCls at hp
    rw [List.find?_cons_of_pos] at hp
    · cases hp; rfl
    · simp
  rcases hpns with rfl | rfl
  · rw [hpd] at ha
    simp [lookupNS] at ha
  · have hcons1 : envConsistentP env1 := by
      rw [henv1]
      intro dd hdd
      rcases List.mem_cons.mp hdd with rfl | hm
      · intro n' a' h'; simp [lookupNS] at h'
      · exact (envConsistentB_to_P hcons) dd hm
    rw [hpd] at ha
    rcases overwrite_shape env1 hcons1 (env1.length + 1) c [] d.pyname n with heq | ⟨m, hm, hname⟩
    · rw [ha] at heq
      simp [lookupNS] at heq
    · rw [ha] at hm
      cases hm
      refine ⟨m, rfl, hname, ?_⟩
      intro inst args kwargs
      rw [← hname]
      exact wrapCall_head m d.pyname inst args kwargs

/-- Witness for C4: on the proxy of `T`, the entry for the ancestor-declared
`baseMethod1` is a wrap labelled with the most-derived label `T`, and its
call records carry the prefix `T.baseMethod1`. -/
theorem C4_witness :
    envConsistentB envT = true ∧
    ∃ m : Method, proxyAttrBase = Attr.fn (wrapMethod m "T") ∧ m.name = "baseMethod1" ∧
      ∀ inst args kwargs,
        ((wrapMethod m "T").fn inst args kwargs).1.head? =
          some ⟨"%s(%s)", [.str ("T" ++ "." ++ "baseMethod1"), .str (stringify args kwargs)]⟩ :=
  ⟨rfl, C4_prefix_most_derived envT 4 tDeclT loggedT.1 loggedT.2 proxyT "baseMethod1"
    proxyAttrBase rfl rfl rfl rfl rfl (by rfl)⟩

/-- C5: discovery is idempotent — starting from a namespace without duplicate
keys, the namespace built by `_overwriteMethods` (which revisits ancestors
along every resolution path) still has no duplicate keys, and a name already
present is never wrapped a second time (its entry is left untouched). -/
theorem C5_discovery_idempotent (env : Env) (fuel c : Nat) (ns : Namespace)
    (cn : String) (h : (nsKeys ns).Nodup) :
    (nsKeys (overwriteMethods env fuel c ns cn)).Nodup ∧
    ∀ n a, lookupNS ns n = some a →
      lookupNS (overwriteMethods env fuel c ns cn) n = some a :=
  ⟨overwrite_nodup env fuel c ns cn h,
   fun n a ha => overwrite_mono env fuel c ns cn n a ha⟩

/-- Witness for C5: over the diamond `D < B1, B2 < A` — where discovery
reaches `A.am` along two paths — the built namespace has no duplicate keys
and the pre-existing entry survives untouched. -/
theorem C5_witness :
    (nsKeys nsPre).Nodup ∧
    ((nsKeys (overwriteMethods envDiamond 8 6 nsPre "D")).Nodup ∧
      ∀ n a, lookupNS nsPre n = some a →
        lookupNS (overwriteMethods envDiamond 8 6 nsPre "D") n = some a) :=
  ⟨by decide, C5_discovery_idempotent envDiamond 8 6 nsPre "D" (by decide)⟩

/-- C6: when the target type's construction mechanism cannot be linearized
with the instrumentation metaclass (the combined metaclass
`(InvocationLogger, type(cls))` admits no consistent MRO), `Logged` fails
with the construction error (`TypeError`), surfaced to its caller. -/
theorem C6_construction_error (env : Env) (c : Nat) (d : ClsDecl)
    (hd : findCls env c = some d)
    (hbad : newClassOk env [ILID, d.metaId]
      (metaDefault env Option.none [ILID, d.metaId]) = false) :
    Logged env c = .error .typeError := by
  have h1 : createClass env "InvocationLogger" [ILID, d.metaId] Option.none Option.none =
      .error .typeError := by
    simp only [createClass]
    rw [hbad]
    rfl
  unfold Logged
  split
  case h_1 heq => rw [hd] at heq; cases heq
  case h_2 d' heq =>
    rw [hd] at heq
    cases heq
    rw [h1]

/-- Witness for C6: a target whose metaclass derives from `InvocationLogger`
(exactly what a `Logged` proxy's metaclass does) cannot be linearized with
`InvocationLogger` again, and `Logged` surfaces the `TypeError`. -/
theorem C6_witness :
    newClassOk envC6 [ILID, cDeclC6.metaId]
      (metaDefault envC6 Option.none [ILID, cDeclC6.metaId]) = false ∧
    Logged envC6 4 = .error .typeError :=
  ⟨rfl, C6_construction_error envC6 4 cDeclC6 rfl rfl⟩

/-- C7 counterexample: with a custom metaclass whose construction hook stamps
`minv` onto every class namespace it builds (the hook runs for an ordinary
subclass `Sub` of the target), `Logged` succeeds but the instrumented type
lacks `minv`: `InvocationLogger.__new__` calls `type.__new__` directly, so
the target metaclass's own construction step is bypassed, not composed —
its construction-time invariant is not preserved on the proxy. -/
theorem C7_counterexample :
    isOkE (Logged (env7 ("minv", .data (.int 1))) 4) = true ∧
    nsKeys (subDecl7 ("minv", .data (.int 1))).ns = ["minv"] ∧
    lookupNS (proxy7 ("minv", .data (.int 1))).ns "minv" = Option.none ∧
    nsKeys (proxy7 ("minv", .data (.int 1))).ns = ["foo"] :=
  ⟨rfl, rfl, rfl, rfl⟩

set_option maxHeartbeats 1600000 in
/-- C7 amended: when the target type uses a custom (compatible) metaclass,
`Logged` still succeeds and produces a working instrumented type — it
returns exactly the closed proxy class `proxy7Expect`, whose combined
metaclass `meta7Expect` inherits from both `InvocationLogger` and the
target's metaclass, and whose wrapped member works and logs.  But the
proxy's namespace is independent of the hook `h` the target's metaclass
carries — the target metaclass's own `__new__` step is bypassed, not run —
even though an ordinarily constructed subclass does receive the hook's
attribute. -/
theorem C7_metaclass_compose_bypass (h : String × Attr) :
    Logged (env7 h) 4 = .ok (proxy7Expect :: meta7Expect :: env7 h, 6) ∧
    proxy7Expect.bases = [4] ∧ proxy7Expect.metaId = 5 ∧
    meta7Expect.bases = [ILID, 3] ∧
    proxy7Expect.ns = [("foo", Attr.fn (wrapMethod fooM "Foo"))] ∧
    wrapCall fooM "Foo" (.obj 0) [] [] =
      ([⟨"%s(%s)", [.str "Foo.foo", .str ""]⟩,
        ⟨"%s: %s", [.str "Foo.foo", .int 42]⟩], .ok (.int 42)) ∧
    createClass (env7 h) "Sub" [4] Option.none Option.none =
      .ok (⟨5, "Sub", [4], [(h.1, h.2)], 3, Option.none⟩ :: env7 h, 5) :=
  ⟨rfl, rfl, rfl, rfl, rfl, rfl, rfl⟩

/-- C8 counterexample: a public non-callable attribute stored only on the
instance (`obj.x = 5`) appears in `dir(obj)` but not on the type, so
`getattr(type(obj), 'x')` raises and `LoggedObj` fails with
`AttributeError` instead of skipping it silently. -/
theorem C8_counterexample :
    lookupNS obj8bad.dict "x" = some (.data (.int 5)) ∧
    getattrCls env8 (env8.length + 1) obj8bad.clsId "x" = Option.none ∧
    LoggedObj env8 obj8bad = .error .attributeError :=
  ⟨rfl, rfl, rfl⟩

/-- C8 amended: non-callable attributes are skipped silently in the sense
that (i) type-path discovery only ever installs wrapped callables — an entry
it adds is always a wrap of a callable, never a data attribute; (ii) on the
instance path, every attribute `LoggedObj` touches resolved on the type to a
callable — names resolving to non-callables are left untouched; (iii) the
instance path succeeds whenever every public name of `dir(obj)` resolves on
the type (in particular non-callable type attributes never cause a failure),
and (iv) `wrapType` success is entirely independent of the contents of every
class dictionary, so no attribute — callable or not — can make it fail.
What the counterexample forces to be dropped: a public *instance-only*
attribute does make `wrapInstance` fail with `AttributeError`. -/
theorem C8_noncallables_skipped :
    (∀ (env : Env) (fuel c : Nat) (ns : Namespace) (cn n : String),
      envConsistentB env = true →
      lookupNS (overwriteMethods env fuel c ns cn) n ≠ lookupNS ns n →
      ∃ m, lookupNS (overwriteMethods env fuel c ns cn) n =
        some (Attr.fn (wrapMethod m cn))) ∧
    (∀ (env : Env) (o o' : Obj), LoggedObj env o = .ok o' →
      ∀ n, lookupNS o'.dict n ≠ lookupNS o.dict n →
        ∃ a, getattrCls env (env.length + 1) o.clsId n = some a ∧
          a.callable = true) ∧
    (∀ (env : Env) (o : Obj),
      (∀ n ∈ dirObj env (env.length + 1) o, startsWithUnderscore n = false →
        (getattrCls env (env.length + 1) o.clsId n).isSome = true) →
      isOkE (LoggedObj env o) = true) ∧
    (∀ (f : Nat → Namespace → Namespace) (env : Env) (c : Nat),
      isOkE (Logged (mapNs f env) c) = isOkE (Logged env c)) := by
  refine ⟨?_, ?_, ?_, ?_⟩
  · intro env fuel c ns cn n hcons hne
    rcases overwrite_shape env (envConsistentB_to_P hcons) fuel c ns cn n with
      he | ⟨m, hm, _⟩
    · exact absurd he hne
    · exact ⟨m, hm⟩
  · intro env o o' h n hn
    simp only [LoggedObj, overwriteMethodsOnObj] at h
    obtain ⟨ob, hacc, _, _, hch⟩ := objfold_inv env _ o.clsId _ _ _ _ h
    cases hacc
    exact hch n hn
  · intro env o hall
    simp only [LoggedObj, overwriteMethodsOnObj]
    exact objfold_ok env _ o.clsId _ _ hall _ rfl
  · intro f env c
    exact Logged_isOkE_mapNs f env c

/-- Witness for C8 (amended): on the fixture class `P` (one public method
`m`, one public data field `field`) the installed entry for `m` is a wrap,
wrapping a plain instance succeeds and only binds the type's callables, and
rewriting every class dictionary does not change whether `Logged`
succeeds. -/
theorem C8_witness :
    (∃ m, lookupNS (overwriteMethods env8 5 3 [] "P") "m" =
      some (Attr.fn (wrapMethod m "P"))) ∧
    (∃ a, getattrCls env8 (env8.length + 1) obj8good.clsId "m" = some a ∧
      a.callable = true) ∧
    isOkE (LoggedObj env8 obj8good) = true ∧
    isOkE (Logged (mapNs (fun _ _ => []) env8) 3) = isOkE (Logged env8 3) := by
  refine ⟨?_, ?_, ?_, ?_⟩
  · refine C8_noncallables_skipped.1 env8 5 3 [] "P" "m" rfl ?_
    rw [show lookupNS (overwriteMethods env8 5 3 [] "P") "m" = some w8 from rfl]
    simp [lookupNS]
  · refine C8_noncallables_skipped.2.1 env8 obj8good obj8res (by rfl) "m" ?_
    rw [show lookupNS obj8res.dict "m" =
      some ((lookupNS obj8res.dict "m").getD (.data .none)) from rfl]
    simp [lookupNS]
  · exact C8_noncallables_skipped.2.2.1 env8 obj8good (by decide)
  · exact C8_noncallables_skipped.2.2.2 (fun _ _ => []) env8 3

/-- C9: instrumentation never alters pre-existing objects other than its
explicit target — a successful `Logged` leaves every existing class (the
target included) untouched and adds a fresh subclass whose direct base is
the target, and `LoggedObj` over a heap leaves every other instance
unchanged while the wrapped instance keeps its identity and its type. -/
theorem C9_frame_effects :
    (∀ (env : Env) (c : Nat) (env' : Env) (pid : Nat),
      Logged env c = .ok (env', pid) →
      (∀ i d0, findCls env i = some d0 → findCls env' i = some d0) ∧
      (∀ d0, d0 ∈ env → d0.id ≠ pid) ∧
      (∃ pd, findCls env' pid = some pd ∧ pd.bases = [c])) ∧
    (∀ (env : Env) (heap heap' : List Obj) (oid : Nat),
      LoggedObjHeap env heap oid = .ok heap' →
      (∀ j, j ≠ oid → findObj heap' j = findObj heap j) ∧
      (∀ o', findObj heap' oid = some o' →
        ∃ o, findObj heap oid = some o ∧ o'.id = o.id ∧ o'.clsId = o.clsId)) := by
  constructor
  · intro env c env' pid h
    obtain ⟨env1, ⟨d1, hd1id, henv1⟩, hpid, pd, hpdid, hpdbases, henv'⟩ :=
      logged_ok_struct h
    have hfresh1 : ∀ i d0, findCls env i = some d0 → findCls env1 i = some d0 := by
      intro i d0 h0
      rw [henv1]
      exact findCls_fresh_frame (le_of_eq hd1id.symm) h0
    have hfresh2 : ∀ i d0, findCls env1 i = some d0 → findCls env' i = some d0 := by
      intro i d0 h0
      rw [henv']
      exact findCls_fresh_frame (le_of_eq hpdid.symm) h0
    refine ⟨fun i d0 h0 => hfresh2 i d0 (hfresh1 i d0 h0), ?_, ?_⟩
    · intro d0 hd0
      have : d0 ∈ env1 := by rw [henv1]; exact List.mem_cons_of_mem _ hd0
      have := mem_id_lt_freshId this
      omega
    · refine ⟨pd, ?_, hpdbases⟩
      rw [henv', hpid]
      unfold findCls
      rw [List.find?_cons_of_pos]
      simp [hpdid]
  · intro env heap heap' oid h
    exact heap_frame env heap heap' oid h

/-- Witness for C9: wrapping `T` leaves the existing class `T` untouched and
adds a fresh proxy subclassing it; wrapping instance 11 in a two-instance
heap leaves the sibling instance 12 unchanged. -/
theorem C9_witness :
    (findCls loggedT.1 4 = some tDeclT ∧
      (∃ pd, findCls loggedT.1 loggedT.2 = some pd ∧ pd.bases = [4])) ∧
    findObj heap9res 12 = findObj heap9 12 := by
  refine ⟨⟨?_, ?_⟩, ?_⟩
  · exact (C9_frame_effects.1 envT 4 loggedT.1 loggedT.2 (by rfl)).1 4 tDeclT rfl
  · exact (C9_frame_effects.1 envT 4 loggedT.1 loggedT.2 (by rfl)).2.2
  · exact (C9_frame_effects.2 env8 heap9 heap9res 11 (by rfl)).1 12 (by decide)
